import Mathlib

/-!
Shallow embedding of the document-processing tool of `metis-mcp-demo`
(`src/tools/document-processing-tool.js`): the three pure text operations
`chunk_document`, `extract_code` and `analyze_document_structure`, with the
uniform `{success, ...}` result shape produced by each handler's
try/catch wrapper.  Text is modelled as `List Char`; the JavaScript regular
expressions are translated into explicit character scanners whose semantics
follow the JS engine (ordered alternation, greedy/lazy quantifiers with
backtracking, `g`/`m` flags via an explicit scan position and line-start flag).
-/

namespace MetisDoc

/-- JS `\s` whitespace predicate, restricted to the ASCII range used by the
inputs of this development (space, tab, newline, carriage return, vertical
tab, form feed). -/
def isWs (c : Char) : Bool :=
  c == ' ' || c == '\t' || c == '\n' || c == '\r' || c == '\x0b' || c == '\x0c'

/-- The characters matched by the JS class `[ \t]`. -/
def isSpaceTab (c : Char) : Bool :=
  c == ' ' || c == '\t'

/-- The characters matched by the JS class `[a-zA-Z0-9]`. -/
def isAlnum (c : Char) : Bool :=
  ('a'.toNat ≤ c.toNat && c.toNat ≤ 'z'.toNat) ||
  ('A'.toNat ≤ c.toNat && c.toNat ≤ 'Z'.toNat) ||
  ('0'.toNat ≤ c.toNat && c.toNat ≤ '9'.toNat)

/-- The digits matched by the JS class `\d`. -/
def isDigit (c : Char) : Bool :=
  '0'.toNat ≤ c.toNat && c.toNat ≤ '9'.toNat

/-- ASCII lower-casing of one character, as `String.prototype.toLowerCase`
acts on the ASCII letters produced by the patterns of this tool. -/
def lcChar (c : Char) : Char :=
  if 'A'.toNat ≤ c.toNat ∧ c.toNat ≤ 'Z'.toNat then Char.ofNat (c.toNat + 32) else c

/-- `String.prototype.toLowerCase` on a character list. -/
def lowerAll (l : List Char) : List Char :=
  l.map lcChar

/-- `String.prototype.trim`: remove leading and trailing JS whitespace. -/
def jsTrim (l : List Char) : List Char :=
  ((l.dropWhile isWs).reverse.dropWhile isWs).reverse

/-- Remove trailing JS whitespace only. -/
def trimRight (l : List Char) : List Char :=
  (l.reverse.dropWhile isWs).reverse

/-- Split a character list at each newline, as the `m` flag's line structure:
`"a\nb"` becomes `["a", "b"]` and a trailing newline yields a final empty
line.  The result is always non-empty. -/
def splitLines : List Char → List (List Char)
  | [] => [[]]
  | c :: rest =>
    if c = '\n' then [] :: splitLines rest
    else
      match splitLines rest with
      | [] => [[c]]
      | l :: ls => (c :: l) :: ls

/-- The uniform MCP handler result: `{success: true, ...payload}` or
`{success: false, error: string}`.  Every handler in the source wraps its
body in try/catch and returns one of these two shapes; no exception crosses
the tool boundary. -/
inductive McpResult (α : Type) where
  | success : α → McpResult α
  | failure : String → McpResult α
deriving DecidableEq

/-- True exactly on the `{success: true}` shape. -/
def isSuccess {α : Type} : McpResult α → Bool
  | .success _ => true
  | .failure _ => false

/-- True exactly on the `{success: false, error}` shape. -/
def isFailure {α : Type} : McpResult α → Bool
  | .success _ => false
  | .failure _ => true

/-- A result is one of the two boundary shapes (trivial structurally; stated
to name the boundary contract). -/
def isShape {α : Type} (r : McpResult α) : Prop :=
  (∃ p, r = .success p) ∨ (∃ e, r = .failure e)

/-- Opaque metadata mapping attached to chunks, modelled as an association
list of string keys and values. -/
def Metadata : Type := List (String × String)

instance : DecidableEq Metadata := inferInstanceAs (DecidableEq (List (String × String)))

/-- A TextChunk as returned by `chunk_document`: `{text, metadata}`. -/
structure Chunk where
  text : List Char
  metadata : Metadata
deriving DecidableEq

/-- The handler's `params.chunkSize || 1000`: an absent parameter and an
explicit `0` both coalesce to the default 1000 (JS falsy coalescing). -/
def effChunkSize : Option Int → Int
  | none => 1000
  | some v => if v = 0 then 1000 else v

/-- The handler's `params.chunkOverlap || 200`: an absent parameter and an
explicit `0` both coalesce to the default 200 (JS falsy coalescing). -/
def effChunkOverlap : Option Int → Int
  | none => 200
  | some v => if v = 0 then 200 else v

/-- The handler's `params.metadata || {}`. -/
def effMetadata : Option Metadata → Metadata
  | none => []
  | some m => m

/-- Fuel-driven splitting of a text into windows of at most `size` characters,
each subsequent window starting `size - overlap` characters after the previous
one, so that it repeats the previous window's trailing `overlap` characters.
The fuel only bounds the recursion; `windowChunks` supplies enough of it, and
an exhausted-fuel call returns the remaining text as one final window. -/
def windowChunksGo (size overlap : Nat) : Nat → List Char → List (List Char)
  | 0, t => [t]
  | fuel + 1, t =>
    if t.length ≤ size then [t]
    else t.take size :: windowChunksGo size overlap fuel (t.drop (size - overlap))

/-- The window decomposition of a text for the given size and overlap. -/
def windowChunks (size overlap : Nat) (t : List Char) : List (List Char) :=
  windowChunksGo size overlap t.length t

/-- Modelled from the spec: the `RecursiveCharacterTextSplitter` used by the
`chunk_document` handler is provided by the external `langchain` dependency
and its implementation is not part of this repository.  Following spec §4.1
and §7, a non-positive chunk size and an overlap not smaller than the size
signal an InvalidArgument error; otherwise the text is split into windows of
at most `chunkSize` characters, each window after the first beginning with
the `chunkOverlap` trailing characters of its predecessor (spec §2
"overlapping fixed-size segments", §4.1 "carrying chunkOverlap characters of
trailing context from one window into the start of the next"; the
separator-preferring boundary choice of §4.1(b) is abstracted to the
fixed-size fallback boundary).  Every chunk carries the provided metadata. -/
def createDocuments (text : List Char) (md : Metadata) (chunkSize chunkOverlap : Int) :
    Except String (List Chunk) :=
  if chunkSize ≤ 0 then
    .error "InvalidArgument: chunkSize must be positive"
  else if chunkSize ≤ chunkOverlap then
    .error "InvalidArgument: chunkOverlap must be smaller than chunkSize"
  else
    .ok ((windowChunks chunkSize.toNat chunkOverlap.toNat text).map
      (fun c => { text := c, metadata := md }))

/-- The `chunk_document` handler: coalesce falsy parameters to their
defaults, run the splitter, and wrap the outcome in the uniform result shape
(a thrown splitter error is caught and returned as `{success: false}`). -/
def chunkDocument (text : List Char) (chunkSize chunkOverlap : Option Int)
    (metadata : Option Metadata) : McpResult (List Chunk × Nat) :=
  match createDocuments text (effMetadata metadata) (effChunkSize chunkSize)
      (effChunkOverlap chunkOverlap) with
  | .ok chunks => .success (chunks, chunks.length)
  | .error e => .failure e

/-- The chunk list of a `chunk_document` result (empty on failure). -/
def chunksOf : McpResult (List Chunk × Nat) → List Chunk
  | .success (cs, _) => cs
  | .failure _ => []

/-- Concatenation of chunk texts after removing the declared `overlap`
characters repeated at the start of each chunk after the first. -/
def reconstructWithOverlap (overlap : Nat) : List (List Char) → List Char
  | [] => []
  | c :: cs => c ++ (cs.map (List.drop overlap)).flatten

/-- A CodeBlock as returned by `extract_code`: `{language, code}`. -/
structure CodeBlock where
  language : List Char
  code : List Char
deriving DecidableEq

/-- One raw regex match of the code-block pattern: the full matched span
(`match[0]`) and the two capture groups (`match[1]` the fence language tag,
`match[2]` the fenced body; both absent for an indented-block match). -/
structure RawMatch where
  full : List Char
  lang : Option (List Char)
  body : Option (List Char)
deriving DecidableEq

/-- First index at which `pat` occurs in `t` (leftmost occurrence). -/
def firstIdxOf (pat : List Char) : List Char → Option Nat
  | [] => if pat.isEmpty then some 0 else none
  | c :: rest =>
    if pat.isPrefixOf (c :: rest) then some 0
    else (firstIdxOf pat rest).map (· + 1)

/-- The fenced alternative of the code-block regex with the optional language
group not taken: lazily match `([\s\S]*?)` up to the closing triple backtick.
`r` is the text after the opening fence; the result is (consumed length from
the opening fence, no language group, the body group). -/
def tryFencedNoLang (r : List Char) : Option (Nat × Option (List Char) × Option (List Char)) :=
  match firstIdxOf "```".toList r with
  | some j => some (3 + j + 3, none, some (r.take j))
  | none => none

/-- The first alternative of the code-block regex,
` ```(?:([a-zA-Z0-9]+)\n)?([\s\S]*?)``` `, tried at the start of the suffix
`s`.  The optional greedy language group participates only when a maximal
non-empty alphanumeric run directly after the opening fence is followed by a
newline; failure to find a closing fence afterwards backtracks to the
group-absent reading, exactly as the JS engine does. -/
def tryFenced (s : List Char) : Option (Nat × Option (List Char) × Option (List Char)) :=
  if "```".toList.isPrefixOf s then
    let r := s.drop 3
    let a := r.takeWhile isAlnum
    match a, r.drop a.length with
    | _ :: _, '\n' :: _ =>
      let b0 := r.drop (a.length + 1)
      match firstIdxOf "```".toList b0 with
      | some j => some (3 + a.length + 1 + j + 3, some a, some (b0.take j))
      | none => tryFencedNoLang r
    | _, _ => tryFencedNoLang r
  else none

/-- Length consumed by the greedy `(?:[ \t]+[^\n]*\n)+` part of the indented
alternative starting at `s`: one or more consecutive lines each beginning
with a space or tab and terminated by a newline.  Returns 0 when no such line
starts here.  The fuel only bounds recursion; callers supply the suffix
length, which is ample since every line consumes at least two characters. -/
def indLinesGo : Nat → List Char → Nat
  | 0, _ => 0
  | fuel + 1, s =>
    match s with
    | [] => 0
    | c :: _ =>
      if isSpaceTab c then
        let line := s.takeWhile (· ≠ '\n')
        if line.length < s.length then
          (line.length + 1) + indLinesGo fuel (s.drop (line.length + 1))
        else 0
      else 0

/-- Length consumed by `(?:[ \t]+[^\n]*\n)+` at `s` (0 when it fails). -/
def indLinesLen (s : List Char) : Nat :=
  indLinesGo s.length s

/-- The second alternative of the code-block regex,
`(?:^[ \t]*\n)?(?:(?:[ \t]+[^\n]*\n)+)`, tried at the start of suffix `s`
with `lineStart` telling whether this position follows a newline (or is the
text start), which is what the `m`-flagged `^` of the optional blank-line
prefix requires.  When the greedy blank-line prefix matches but no indented
line follows it, the engine backtracks to the prefix-absent reading. -/
def tryIndented (lineStart : Bool) (s : List Char) : Option Nat :=
  let direct := indLinesLen s
  if lineStart then
    let w := s.takeWhile isSpaceTab
    match s.drop w.length with
    | '\n' :: rest =>
      let k := indLinesLen rest
      if k ≠ 0 then some (w.length + 1 + k)
      else if direct ≠ 0 then some direct else none
    | _ =>
      if direct ≠ 0 then some direct else none
  else
    if direct ≠ 0 then some direct else none

/-- The `codeBlockRegex.exec` loop on suffix `s`: at each position try the
fenced alternative first, then the indented one (JS ordered alternation);
on a match, record `match[0]`, `match[1]`, `match[2]` and resume after the
match (`lastIndex` advances past it; every match is non-empty).  A fenced
match ends in a backtick, so the following position is not a line start; an
indented match ends in a newline, so it is.  Fuel only bounds recursion and
`scanMatches` supplies the suffix length plus one, which is ample since each
step consumes at least one character. -/
def scanGo : Nat → List Char → Bool → List RawMatch
  | 0, _, _ => []
  | fuel + 1, s, lineStart =>
    match s with
    | [] => []
    | c :: rest =>
      match tryFenced s with
      | some (m, lang, body) =>
        ⟨s.take m, lang, body⟩ :: scanGo fuel (s.drop m) false
      | none =>
        match tryIndented lineStart s with
        | some m => ⟨s.take m, none, none⟩ :: scanGo fuel (s.drop m) true
        | none => scanGo fuel rest (c = '\n')

/-- All matches of `codeBlockRegex` over a text, in scan order. -/
def scanMatches (t : List Char) : List RawMatch :=
  scanGo (t.length + 1) t true

/-- The body of the `extract_code` while-loop: build a CodeBlock from each
raw match (`blockLanguage` is the lowercased tag or the sentinel "unknown";
`code` is `match[2].trim()` when `match[2]` is truthy — i.e. present and
non-empty — and `match[0].trim()` otherwise) and keep it when no language
filter is set or the detected language equals the filter. -/
def buildBlocks (filter : Option (List Char)) : List RawMatch → List CodeBlock
  | [] => []
  | m :: ms =>
    let blockLanguage := match m.lang with
      | some a => lowerAll a
      | none => "unknown".toList
    let code := match m.body with
      | some b => if b.isEmpty then jsTrim m.full else jsTrim b
      | none => jsTrim m.full
    let rest := buildBlocks filter ms
    match filter with
    | none => ⟨blockLanguage, code⟩ :: rest
    | some f => if blockLanguage == f then ⟨blockLanguage, code⟩ :: rest else rest

/-- The `extract_code` handler: `params.language ? params.language.toLowerCase()
: null` (an empty string is falsy, hence no filter), then the regex scan and
filter loop, wrapped in the uniform result shape.  The body is total, so the
catch branch is unreachable. -/
def extractCode (text : List Char) (language : Option (List Char)) :
    McpResult (List CodeBlock × Nat) :=
  let langFilter : Option (List Char) := match language with
    | some l => if l.isEmpty then none else some (lowerAll l)
    | none => none
  let codeBlocks := buildBlocks langFilter (scanMatches text)
  .success (codeBlocks, codeBlocks.length)

/-- The block list of an `extract_code` result (empty on failure). -/
def codeBlocksOf : McpResult (List CodeBlock × Nat) → List CodeBlock
  | .success (bs, _) => bs
  | .failure _ => []

/-- One heading of the structure report: `{level, text, position}`. -/
structure Heading where
  level : Nat
  text : List Char
  position : Nat
deriving DecidableEq

/-- Attempt of the heading regex `^(#{1,6})\s+(.+)$` at a line-start suffix
`t`: a maximal run of one to six `#` (seven or more fail, since the greedy
`#{1,6}` leaves a `#` that `\s+` rejects), then a maximal whitespace run of
at least one character (which, `\s` matching newlines, may span blank lines),
then `(.+)` takes the rest of that line; at end of input the engine
backtracks one whitespace character into `(.+)` when the run has at least
two characters and does not end in a newline (which `.` cannot match).
Returns the level, `match[2].trim()`, and the consumed length. -/
def tryHeading (t : List Char) : Option (Nat × List Char × Nat) :=
  let hashes := t.takeWhile (· = '#')
  let k := hashes.length
  if 1 ≤ k ∧ k ≤ 6 then
    let r := t.drop k
    let w := (r.takeWhile isWs).length
    if w = 0 then none
    else
      match r.drop w with
      | b :: bs =>
        let body := (b :: bs).takeWhile (· ≠ '\n')
        some (k, jsTrim body, k + w + body.length)
      | [] =>
        if 2 ≤ w ∧ (r.take w).getLast? ≠ some '\n' then some (k, [], k + w)
        else none
  else none

/-- The `headingRegex.exec` loop: try the anchored pattern at every line
start from the current position on, emitting matches in document order and
resuming after each match (whose last character is never a newline, so the
following position is not a line start).  `pos` is the absolute offset of
the suffix `t`; the fuel only bounds recursion and `headingsOf` supplies
the text length plus one, ample since every step consumes a character. -/
def headingGo : Nat → List Char → Nat → Bool → List Heading
  | 0, _, _, _ => []
  | fuel + 1, t, pos, lineStart =>
    match t with
    | [] => []
    | c :: rest =>
      match lineStart, tryHeading t with
      | true, some (k, htext, consumed) =>
        ⟨k, htext, pos⟩ :: headingGo fuel (t.drop consumed) (pos + consumed) false
      | _, _ => headingGo fuel rest (pos + 1) (c = '\n')

/-- All headings of a text, with zero-based character positions. -/
def headingsOf (t : List Char) : List Heading :=
  headingGo (t.length + 1) t 0 true

/-- Index of the last newline of `l`, if any. -/
def lastNlIdx (l : List Char) : Option Nat :=
  (l.reverse.findIdx? (· = '\n')).map (fun k => l.length - 1 - k)

/-- The `text.split(/\n\s*\n/)` scan: walking the text, a separator starts at
a newline whose maximal whitespace run contains a further newline; greedy
`\s*` with the final backtracking `\n` makes the separator extend to the last
newline of that run.  `cur` accumulates the current fragment in reverse.
Fuel only bounds recursion (each step consumes at least one character);
`paragraphsOf` supplies the text length plus one. -/
def paraGo : Nat → List Char → List Char → List (List Char)
  | 0, t, cur => [cur.reverse ++ t]
  | _ + 1, [], cur => [cur.reverse]
  | fuel + 1, c :: rest, cur =>
    if c = '\n' then
      let run := (c :: rest).takeWhile isWs
      match lastNlIdx run with
      | some j =>
        if 1 ≤ j then cur.reverse :: paraGo fuel ((c :: rest).drop (j + 1)) []
        else paraGo fuel rest (c :: cur)
      | none => paraGo fuel rest (c :: cur)
    else paraGo fuel rest (c :: cur)

/-- The fragments of `text.split(/\n\s*\n/)`. -/
def paragraphsOf (t : List Char) : List (List Char) :=
  paraGo (t.length + 1) t []

/-- Line form of the bullet-item regex `^\s*[-*+]\s+.+` (multiline, counted
per matched line): after optional leading whitespace, a bullet character
followed by at least one whitespace character and at least one further
character on the line.  The corner case of a `\s+` run crossing the line's
end is not exercised by the inputs of this development. -/
def bulletLine (l : List Char) : Bool :=
  match l.dropWhile isWs with
  | c :: d :: _ :: _ => (c == '-' || c == '*' || c == '+') && isWs d
  | _ => false

/-- Line form of the numbered-item regex `^\s*\d+\.\s+.+`: after optional
leading whitespace, a maximal digit run, a period, then at least one
whitespace character and at least one further character on the line. -/
def numberedLine (l : List Char) : Bool :=
  let r := l.dropWhile isWs
  let ds := r.takeWhile isDigit
  match ds, r.drop ds.length with
  | _ :: _, '.' :: d :: _ :: _ => isWs d
  | _, _ => false

/-- Line form of the table-row regex `^\|(.+)\|\s*$`: the line begins with
`|` and, after discarding trailing whitespace, ends with `|` with at least
one character in between.  Counting matching lines agrees with the
`g`-flagged `match` count, since a greedy `\s*$` crossing into following
lines can only swallow all-whitespace lines, which are never table rows. -/
def tableLine (l : List Char) : Bool :=
  match l with
  | '|' :: _ =>
    let r := trimRight l
    3 ≤ r.length && r.getLast? == some '|'
  | _ => false

/-- The `text.split(/\s+/).filter(w => w.length > 0).length` word count:
number of maximal non-whitespace runs, computed with an inside-a-word flag. -/
def countWordsGo : List Char → Bool → Nat
  | [], _ => 0
  | c :: rest, inWord =>
    if isWs c then countWordsGo rest false
    else (if inWord then 0 else 1) + countWordsGo rest true

/-- Number of whitespace-delimited non-empty tokens of a text. -/
def countWords (t : List Char) : Nat :=
  countWordsGo t false

/-- The StructureReport returned by `analyze_document_structure`. -/
structure DocStructure where
  headings : List Heading
  paragraphCount : Nat
  bulletListItemCount : Nat
  numberedListItemCount : Nat
  tableRowCount : Nat
  totalLength : Nat
  wordCount : Nat
deriving DecidableEq

/-- The try-body of the `analyze_document_structure` handler: the five regex
scans plus the two length counts over the input text. -/
def analyze (t : List Char) : DocStructure :=
  { headings := headingsOf t
    paragraphCount := (paragraphsOf t).countP (fun p => !(jsTrim p).isEmpty)
    bulletListItemCount := (splitLines t).countP bulletLine
    numberedListItemCount := (splitLines t).countP numberedLine
    tableRowCount := (splitLines t).countP tableLine
    totalLength := t.length
    wordCount := countWords t }

/-- The `analyze_document_structure` handler: the analysis body is total, so
the result is always `{success: true, structure}`. -/
def analyzeDocumentStructure (t : List Char) : McpResult DocStructure :=
  .success (analyze t)

/-- The structure of an `analyze_document_structure` result (an empty report
on failure, which never occurs). -/
def structureOf : McpResult DocStructure → DocStructure
  | .success s => s
  | .failure _ => ⟨[], 0, 0, 0, 0, 0, 0⟩

theorem splitLines_append (a : List Char) (rest : List Char) (h : '\n' ∉ a) :
    splitLines (a ++ '\n' :: rest) = a :: splitLines rest := by
  induction a with
  | nil => simp [splitLines]
  | cons c a ih =>
    have hc : ¬ c = '\n' := fun e => h (e ▸ List.mem_cons_self c a)
    have ha : '\n' ∉ a := fun m => h (List.mem_cons_of_mem c m)
    simp only [List.cons_append, splitLines, if_neg hc, List.append_eq, ih ha]

theorem splitLines_eq_single (a : List Char) (h : '\n' ∉ a) : splitLines a = [a] := by
  induction a with
  | nil => rfl
  | cons c a ih =>
    have hc : ¬ c = '\n' := fun e => h (e ▸ List.mem_cons_self c a)
    have ha : '\n' ∉ a := fun m => h (List.mem_cons_of_mem c m)
    simp only [splitLines, if_neg hc, ih ha]

theorem windowChunksGo_drop_flatten (size ov : Nat) (hov : ov ≤ size) :
    ∀ (f : Nat) (t : List Char),
      ((windowChunksGo size ov f t).map (List.drop ov)).flatten = t.drop ov := by
  intro f
  induction f with
  | zero => intro t; simp [windowChunksGo]
  | succ f ih =>
    intro t
    by_cases hl : t.length ≤ size
    · simp [windowChunksGo, hl]
    · simp only [windowChunksGo, if_neg hl, List.map_cons, List.flatten_cons, ih]
      rw [List.drop_take, List.drop_drop]
      rw [show size - ov + ov = size by omega]
      rw [show List.drop size t = List.drop (size - ov) (List.drop ov t) by
        rw [List.drop_drop]; congr 1; omega]
      exact List.take_append_drop _ _

theorem windowChunksGo_reconstruct (size ov : Nat) (hov : ov ≤ size) :
    ∀ (f : Nat) (t : List Char),
      reconstructWithOverlap ov (windowChunksGo size ov f t) = t := by
  intro f t
  cases f with
  | zero => simp [windowChunksGo, reconstructWithOverlap]
  | succ f =>
    by_cases hl : t.length ≤ size
    · simp [windowChunksGo, hl, reconstructWithOverlap]
    · simp only [windowChunksGo, if_neg hl, reconstructWithOverlap,
        windowChunksGo_drop_flatten size ov hov]
      rw [List.drop_drop, show size - ov + ov = size by omega]
      exact List.take_append_drop _ _

theorem buildBlocks_filter_eq (f : List Char) (ms : List RawMatch) :
    buildBlocks (some f) ms = (buildBlocks none ms).filter (fun b => b.language == f) := by
  induction ms with
  | nil => rfl
  | cons m ms ih =>
    simp only [buildBlocks, List.filter, ih]
    cases hbl : (match m.lang with
      | some a => lowerAll a
      | none => "unknown".toList) == f <;> simp [hbl]

/-- C1 (amended): every operation returns the uniform shape, success payload
or `{success: false, error: string}`, never an escaping exception; and
`chunk_document` invoked with chunkOverlap ≥ chunkSize returns a structured
failure whenever both parameters are non-zero (a zero parameter is first
replaced by its default, 1000 or 200, and the defaulted values decide the
outcome). -/
theorem uniform_result_shape :
    (∀ (t : List Char) (s o : Option Int) (m : Option Metadata),
      isShape (chunkDocument t s o m)) ∧
    (∀ (t : List Char) (l : Option (List Char)), isShape (extractCode t l)) ∧
    (∀ t : List Char, isShape (analyzeDocumentStructure t)) ∧
    (∀ (t : List Char) (m : Option Metadata) (s o : Int),
      s ≠ 0 → o ≠ 0 → s ≤ o → isFailure (chunkDocument t (some s) (some o) m) = true) := by
  refine ⟨?_, ?_, ?_, ?_⟩
  · intro t s o m
    cases chunkDocument t s o m with
    | success p => exact Or.inl ⟨p, rfl⟩
    | failure e => exact Or.inr ⟨e, rfl⟩
  · intro t l
    cases extractCode t l with
    | success p => exact Or.inl ⟨p, rfl⟩
    | failure e => exact Or.inr ⟨e, rfl⟩
  · intro t
    cases analyzeDocumentStructure t with
    | success p => exact Or.inl ⟨p, rfl⟩
    | failure e => exact Or.inr ⟨e, rfl⟩
  · intro t m s o hs ho hso
    have hse : effChunkSize (some s) = s := by simp [effChunkSize, hs]
    have hoe : effChunkOverlap (some o) = o := by simp [effChunkOverlap, ho]
    by_cases h0 : s ≤ 0
    · simp [chunkDocument, createDocuments, hse, hoe, h0, isFailure]
    · simp [chunkDocument, createDocuments, hse, hoe, h0, hso, isFailure]

/-- Spot check of `uniform_result_shape` at concrete inputs. -/
theorem uniform_result_shape_spot :
    ((5 : Int) ≠ 0 ∧ (7 : Int) ≠ 0 ∧ (5 : Int) ≤ 7) ∧
      isFailure (chunkDocument "abc".toList (some 5) (some 7) none) = true :=
  ⟨by decide, uniform_result_shape.2.2.2 "abc".toList none 5 7
    (by decide) (by decide) (by decide)⟩

/-- C1 counterexample to the claim as stated: invoking `chunk_document` with
chunkOverlap = chunkSize = 0 (so overlap ≥ size) yields a success result,
not a failure, because both falsy parameters are replaced by their defaults
1000 and 200 before the comparison. -/
theorem overlap_ge_size_zero_success :
    isSuccess (chunkDocument "ab".toList (some 0) (some 0) none) = true ∧
      isFailure (chunkDocument "ab".toList (some 0) (some 0) none) = false := by
  decide

/-- C2 (amended): a negative chunkSize always produces a structured failure
result (the spec-modelled splitter signals InvalidArgument, the handler
catches it); an explicit chunkSize of 0 is silently replaced by the default
1000 instead and is not rejected.  The operation is a pure function, so it
performs no network or I/O side effects. -/
theorem negative_chunk_size_failure (t : List Char) (o : Option Int)
    (m : Option Metadata) (s : Int) (hs : s < 0) :
    isFailure (chunkDocument t (some s) o m) = true := by
  have hs0 : s ≠ 0 := by omega
  have hse : effChunkSize (some s) = s := by simp [effChunkSize, hs0]
  simp [chunkDocument, createDocuments, hse, (by omega : s ≤ 0), isFailure]

/-- Spot check of `negative_chunk_size_failure` at a concrete input. -/
theorem negative_chunk_size_failure_spot :
    (-1 : Int) < 0 ∧
      isFailure (chunkDocument "hello".toList (some (-1)) none none) = true :=
  ⟨by decide, negative_chunk_size_failure "hello".toList none none (-1) (by decide)⟩

/-- C2 counterexample to the claim as stated: chunkSize = 0 satisfies
chunkSize ≤ 0, yet the call succeeds, because `params.chunkSize || 1000`
replaces the falsy 0 with the default 1000. -/
theorem zero_chunk_size_success :
    isSuccess (chunkDocument "hello".toList (some 0) none none) = true ∧
      isFailure (chunkDocument "hello".toList (some 0) none none) = false := by
  decide

/-- C3 (amended): analyzing `"# Title\n\nSome text\n\n## Sub"` yields exactly
the two headings {level 1, "Title", position 0} and {level 2, "Sub",
position 20} in document order, and paragraphCount = 3 (the split on blank
lines yields the fragments "# Title", "Some text" and "## Sub", all
non-empty after trimming — heading lines count as paragraphs). -/
theorem heading_example_structure :
    (structureOf (analyzeDocumentStructure "# Title\n\nSome text\n\n## Sub".toList)).headings
        = [⟨1, "Title".toList, 0⟩, ⟨2, "Sub".toList, 20⟩] ∧
      (structureOf (analyzeDocumentStructure
        "# Title\n\nSome text\n\n## Sub".toList)).paragraphCount = 3 := by
  decide

/-- C3 counterexample to the claim as stated: the paragraph count of the
example document is 3, not 2. -/
theorem heading_example_paragraph_count :
    (structureOf (analyzeDocumentStructure
        "# Title\n\nSome text\n\n## Sub".toList)).paragraphCount = 3 ∧
      ((structureOf (analyzeDocumentStructure
        "# Title\n\nSome text\n\n## Sub".toList)).paragraphCount == 2) = false := by
  decide

/-- C4 (amended): for every text and parameters with 0 < chunkOverlap <
chunkSize, the call succeeds and concatenating the returned chunk texts
after removing the declared chunkOverlap characters repeated at the start of
each chunk after the first reconstructs the input exactly.  An explicit
chunkOverlap of 0 is excluded: it is replaced by the default 200, which
makes the call fail whenever 200 ≥ chunkSize. -/
theorem chunk_coverage (t : List Char) (m : Option Metadata) (s o : Int)
    (hs : 0 < s) (ho : 0 < o) (hos : o < s) :
    isSuccess (chunkDocument t (some s) (some o) m) = true ∧
      reconstructWithOverlap o.toNat
        ((chunksOf (chunkDocument t (some s) (some o) m)).map Chunk.text) = t := by
  have hs0 : s ≠ 0 := by omega
  have ho0 : o ≠ 0 := by omega
  have hse : effChunkSize (some s) = s := by simp [effChunkSize, hs0]
  have hoe : effChunkOverlap (some o) = o := by simp [effChunkOverlap, ho0]
  have h1 : ¬s ≤ 0 := by omega
  have h2 : ¬s ≤ o := by omega
  refine ⟨?_, ?_⟩
  · simp [chunkDocument, createDocuments, hse, hoe, h1, h2, isSuccess]
  · simp only [chunkDocument, createDocuments, hse, hoe, if_neg h1, if_neg h2,
      chunksOf, List.map_map]
    have hmap : (Chunk.text ∘ fun c => ({ text := c, metadata := effMetadata m } : Chunk))
        = id := rfl
    rw [hmap, List.map_id]
    exact windowChunksGo_reconstruct s.toNat o.toNat (by omega) _ t

/-- Spot check of `chunk_coverage` at a concrete input: "abcdef" with size 3
and overlap 1 splits into "abc", "cde", "ef" and reconstructs exactly. -/
theorem chunk_coverage_spot :
    ((0 : Int) < 3 ∧ (0 : Int) < 1 ∧ (1 : Int) < 3) ∧
      (isSuccess (chunkDocument "abcdef".toList (some 3) (some 1) none) = true ∧
        reconstructWithOverlap (1 : Int).toNat
          ((chunksOf (chunkDocument "abcdef".toList (some 3) (some 1) none)).map Chunk.text)
          = "abcdef".toList) :=
  ⟨by decide, chunk_coverage "abcdef".toList none 3 1 (by decide) (by decide) (by decide)⟩

/-- C4 counterexample to the claim as stated: chunkSize = 5 with
chunkOverlap = 0 is valid per the claim (overlap < size), yet the call fails
(the falsy 0 becomes the default 200 and 200 ≥ 5), so no chunks are returned
and nothing reconstructs the text. -/
theorem zero_overlap_no_reconstruction :
    isFailure (chunkDocument "hello".toList (some 5) (some 0) none) = true ∧
      (reconstructWithOverlap 0
        ((chunksOf (chunkDocument "hello".toList (some 5) (some 0) none)).map Chunk.text)
        == "hello".toList) = false := by
  decide

/-- C5: every chunk of a `chunk_document` call that supplied a metadata
mapping carries exactly that mapping, with no keys added or removed (the
spec-modelled splitter attaches the provided mapping to every chunk). -/
theorem metadata_propagation (t : List Char) (s o : Option Int) (md : Metadata)
    (c : Chunk) (hc : c ∈ chunksOf (chunkDocument t s o (some md))) :
    c.metadata = md := by
  simp only [chunkDocument, effMetadata] at hc
  cases hcd : createDocuments t md (effChunkSize s) (effChunkOverlap o) with
  | error e => rw [hcd] at hc; simp [chunksOf] at hc
  | ok cs =>
    rw [hcd] at hc
    simp only [chunksOf] at hc
    unfold createDocuments at hcd
    by_cases hA : effChunkSize s ≤ 0
    · rw [if_pos hA] at hcd; cases hcd
    · rw [if_neg hA] at hcd
      by_cases hB : effChunkSize s ≤ effChunkOverlap o
      · rw [if_pos hB] at hcd; cases hcd
      · rw [if_neg hB] at hcd
        cases hcd
        obtain ⟨w, _, rfl⟩ := List.mem_map.mp hc
        rfl

/-- Spot check of `metadata_propagation` at a concrete input. -/
theorem metadata_propagation_spot :
    (⟨"ab".toList, [("k", "v")]⟩ : Chunk)
        ∈ chunksOf (chunkDocument "ab".toList (some 5) (some 1) (some [("k", "v")])) ∧
      (⟨"ab".toList, [("k", "v")]⟩ : Chunk).metadata = [("k", "v")] :=
  ⟨by decide, metadata_propagation "ab".toList (some 5) (some 1) [("k", "v")] _ (by decide)⟩

/-- C6 (amended): for every non-empty language argument L, `extract_code`
returns exactly those blocks of the unfiltered result whose detected
(lowercased) language equals the lowercased L, in order (an empty-string L
is falsy and disables the filter entirely). -/
theorem language_filter (t : List Char) (l : List Char) (hl : l ≠ []) :
    codeBlocksOf (extractCode t (some l))
      = (codeBlocksOf (extractCode t none)).filter (fun b => b.language == lowerAll l) := by
  cases l with
  | nil => exact absurd rfl hl
  | cons c cs =>
    simp only [extractCode, List.isEmpty_cons, Bool.false_eq_true, if_false, codeBlocksOf]
    exact buildBlocks_filter_eq (lowerAll (c :: cs)) (scanMatches t)

/-- Spot check of `language_filter` at a concrete input: filtering for "JS"
(upper case) keeps the block whose tag was "js". -/
theorem language_filter_spot :
    "JS".toList ≠ [] ∧
      codeBlocksOf (extractCode "```js\nx\n```".toList (some "JS".toList))
        = (codeBlocksOf (extractCode "```js\nx\n```".toList none)).filter
            (fun b => b.language == lowerAll "JS".toList) :=
  ⟨by decide, language_filter "```js\nx\n```".toList "JS".toList (by decide)⟩

/-- C6 counterexample to the claim as stated: with the language argument ""
the handler treats the falsy string as "no filter" and returns every block,
instead of the empty selection of blocks whose language equals "". -/
theorem empty_language_returns_all :
    codeBlocksOf (extractCode "\tx\n".toList (some []))
        = [⟨"unknown".toList, "x".toList⟩] ∧
      (codeBlocksOf (extractCode "\tx\n".toList (some []))
        == (codeBlocksOf (extractCode "\tx\n".toList none)).filter
             (fun b => b.language == lowerAll [])) = false := by
  decide

/-- C7: a document of three newline-separated lines, each a table row in the
sense of the source's row pattern (begins with `|` and, ignoring trailing
whitespace, ends with `|` with content in between), has tableRowCount = 3 —
header, separator and data rows are counted indiscriminately. -/
theorem table_row_count_three (l1 l2 l3 : List Char)
    (h1 : tableLine l1 = true) (h2 : tableLine l2 = true) (h3 : tableLine l3 = true)
    (n1 : '\n' ∉ l1) (n2 : '\n' ∉ l2) (n3 : '\n' ∉ l3) :
    (structureOf (analyzeDocumentStructure
      (l1 ++ '\n' :: (l2 ++ '\n' :: l3)))).tableRowCount = 3 := by
  simp only [analyzeDocumentStructure, structureOf, analyze]
  rw [splitLines_append l1 _ n1, splitLines_append l2 _ n2, splitLines_eq_single l3 n3]
  simp [List.countP_cons, h1, h2, h3]

/-- Spot check of `table_row_count_three` on a table whose middle line is a
markdown separator row. -/
theorem table_row_count_three_spot :
    (tableLine "| a | b |".toList = true ∧ tableLine "|---|---|".toList = true ∧
        tableLine "| 1 | 2 |".toList = true ∧ '\n' ∉ "| a | b |".toList ∧
        '\n' ∉ "|---|---|".toList ∧ '\n' ∉ "| 1 | 2 |".toList) ∧
      (structureOf (analyzeDocumentStructure
        ("| a | b |".toList ++ '\n' :: ("|---|---|".toList ++ '\n' :: "| 1 | 2 |".toList)))).tableRowCount = 3 :=
  ⟨by decide, table_row_count_three "| a | b |".toList "|---|---|".toList "| 1 | 2 |".toList
    (by decide) (by decide) (by decide) (by decide) (by decide) (by decide)⟩

/-- C8: the three operations are pure functions of their inputs — two calls
with structurally identical text and options produce structurally identical
results. -/
theorem operations_deterministic (t₁ t₂ : List Char) (s₁ s₂ o₁ o₂ : Option Int)
    (m₁ m₂ : Option Metadata) (l₁ l₂ : Option (List Char))
    (ht : t₁ = t₂) (hs : s₁ = s₂) (ho : o₁ = o₂) (hm : m₁ = m₂) (hl : l₁ = l₂) :
    chunkDocument t₁ s₁ o₁ m₁ = chunkDocument t₂ s₂ o₂ m₂ ∧
      extractCode t₁ l₁ = extractCode t₂ l₂ ∧
      analyzeDocumentStructure t₁ = analyzeDocumentStructure t₂ := by
  subst ht hs ho hm hl
  exact ⟨rfl, rfl, rfl⟩

/-- Spot check of `operations_deterministic` at concrete inputs. -/
theorem operations_deterministic_spot :
    chunkDocument "x".toList (some 3) (some 1) none
        = chunkDocument "x".toList (some 3) (some 1) none ∧
      extractCode "x".toList none = extractCode "x".toList none ∧
      analyzeDocumentStructure "x".toList = analyzeDocumentStructure "x".toList :=
  operations_deterministic "x".toList "x".toList (some 3) (some 3) (some 1) (some 1)
    none none none none rfl rfl rfl rfl rfl

/-- C9: an explicit chunkSize or chunkOverlap of 0 is treated exactly as an
omitted parameter — `params.x || default` coalesces the falsy 0 to the
defaults 1000 and 200 — so a caller can never obtain an effective overlap of
0, and chunkSize = 0 is silently replaced by 1000 rather than rejected. -/
theorem falsy_zero_defaults :
    (∀ (t : List Char) (o : Option Int) (m : Option Metadata),
        chunkDocument t (some 0) o m = chunkDocument t none o m) ∧
      (∀ (t : List Char) (s : Option Int) (m : Option Metadata),
        chunkDocument t s (some 0) m = chunkDocument t s none m) ∧
      (∀ o : Option Int, (effChunkOverlap o == 0) = false) ∧
      effChunkSize (some 0) = 1000 ∧ effChunkOverlap (some 0) = 200 := by
  refine ⟨fun t o m => rfl, fun t s m => rfl, ?_, rfl, rfl⟩
  intro o
  cases o with
  | none => decide
  | some v =>
    by_cases hv : v = 0
    · subst hv; decide
    · show ((if v = 0 then 200 else v : Int) == 0) = false
      rw [if_neg hv]
      exact beq_eq_false_iff_ne.mpr hv

/-- C10: an indented line is part of an indented code block only when it is
newline-terminated — the single line "\tfoo" without a trailing newline
yields no code block and count 0, while the same line with a trailing
newline yields one block. -/
theorem indented_requires_newline :
    extractCode "\tfoo".toList none = .success ([], 0) ∧
      extractCode "\tfoo\n".toList none
        = .success ([⟨"unknown".toList, "foo".toList⟩], 1) := by
  decide

end MetisDoc
